import Mathlib

/-!
Verification of the folder-report generator `folder_analyze.py`.

The development shallowly embeds the program's core: the `Item` record
class, the two walkers `analyze_zip` / `analyze_folder`, the format
dispatch in `main`, and the JSON writer `write_json`.  Paths are modelled
as Windows-style strings (the program counts `'\'` separators and splits
on `'\'`), filesystem trees and ZIP member lists as inductive values, and
Python's fallible operations (`zipfile.ZipFile` on non-archives) as
`Except`.  The mutual inductive types `ZEntry`/`ZList` and
`FSTree`/`FSList` let both walkers recurse structurally into nested
archives and subdirectories, so every definition evaluates by kernel
reduction on concrete inputs.
-/

set_option maxRecDepth 10000

/-- Number of occurrences of character `c` in string `s`.
Models Python's `str.count` for a single-character argument
(`folder_analyze.py`, line 47). -/
def countChar (s : String) (c : Char) : Nat :=
  s.data.count c

/-- The path separator counted and split on by `Item.__init__`. -/
def sepChar : Char := '\\'

/-- The path separator as a string. -/
def sepStr : String := "\\"

/-- Split a character list on a separator character; models Python's
`str.split` with a single-character separator. -/
def splitOnChar (c : Char) : List Char → List (List Char)
  | [] => [[]]
  | x :: xs =>
    let r := splitOnChar c xs
    if x = c then [] :: r
    else
      match r with
      | [] => [[x]]
      | h :: t => (x :: h) :: t

/-- Final path component: `self.path.split('\\')[-1]`
(`folder_analyze.py`, line 49); also the `name` used by `Path.suffix`. -/
def lastComponent (p : String) : String :=
  String.mk ((splitOnChar sepChar p.data).getLastD [])

/-- ASCII lower-casing of one character (what Python's `str.lower`
does on the ASCII range handled by this program). -/
def charLower (c : Char) : Char :=
  if 65 ≤ c.toNat ∧ c.toNat ≤ 90 then Char.ofNat (c.toNat + 32) else c

/-- Models `str.lower()`. -/
def strLower (s : String) : String :=
  String.mk (s.data.map charLower)

/-- Does the string end with the given character?  Models Python's
`str.endswith` with a one-character argument. -/
def endsWithChar (s : String) (c : Char) : Bool :=
  s.data.getLast? = some c

/-- Models `pathlib.PurePath.suffix` applied to a final component:
the substring from the last dot, provided the dot is neither the first
nor the last character of the name; otherwise the empty string. -/
def pySuffixOfName (name : String) : String :=
  match name.data.reverse.findIdx? (fun c => c = '.') with
  | none => ""
  | some rj =>
    let n := name.data.length
    let i := n - 1 - rj
    if 0 < i ∧ i < n - 1 then String.mk (name.data.drop i) else ""

/-- Models `path.suffix.lower()` for a full path string: the lower-cased
extension of the final component. -/
def suffixLower (p : String) : String :=
  strLower (pySuffixOfName (lastComponent p))

/-- Normalization performed by `pathlib.WindowsPath` on a joined segment:
forward slashes become backslashes and trailing separators are dropped. -/
def normSeg (s : String) : String :=
  String.mk (((s.data.map (fun c => if c = '/' then '\\' else c)).reverse.dropWhile
    (fun c => c = '\\')).reverse)

/-- Models `pathlib.Path.joinpath` (as used with `str()` output on
Windows): joining an empty segment returns the path unchanged, otherwise
the normalized segment is appended after one separator. -/
def pathJoin (r s : String) : String :=
  let n := normSeg s
  if n = "" then r else r ++ sepStr ++ n

/-- The decimal digit character for `n % 10`. -/
def digitChar (n : Nat) : Char :=
  Char.ofNat (48 + n % 10)

/-- Decimal digits of `n` (most significant first), with explicit fuel so
that the definition reduces in the kernel; fuel `n` always suffices. -/
def natDigsAux : Nat → Nat → List Char
  | 0, _ => []
  | _ + 1, 0 => []
  | f + 1, n + 1 => natDigsAux f ((n + 1) / 10) ++ [digitChar ((n + 1) % 10)]

/-- Models Python's `str(int)` for non-negative integers. -/
def natRepr (n : Nat) : String :=
  if n = 0 then "0" else String.mk (natDigsAux n n)

/-- Left-pad a character list with zeros up to length `k`
(models `%0kd` formatting inside `datetime.isoformat`). -/
def padZeros (k : Nat) (l : List Char) : List Char :=
  List.replicate (k - l.length) '0' ++ l

/-- Zero-padded decimal rendering of `n` to at least `k` characters. -/
def padNum (k n : Nat) : String :=
  String.mk (padZeros k (natRepr n).data)

/-- A Python `datetime` value as produced by `datetime.fromtimestamp`
(`folder_analyze.py`, line 121). -/
structure PyDT where
  y : Nat
  mo : Nat
  d : Nat
  h : Nat
  mi : Nat
  s : Nat
  us : Nat
deriving DecidableEq

/-- The per-member 6-tuple `ZipInfo.date_time`
(`folder_analyze.py`, line 82). -/
structure DT6 where
  y : Nat
  mo : Nat
  d : Nat
  h : Nat
  mi : Nat
  s : Nat
deriving DecidableEq

/-- Models `datetime.isoformat()`: `YYYY-MM-DDTHH:MM:SS`, with
`.ffffff` appended exactly when the microsecond field is nonzero. -/
def isoformat (t : PyDT) : String :=
  padNum 4 t.y ++ "-" ++ padNum 2 t.mo ++ "-" ++ padNum 2 t.d ++ "T" ++
    padNum 2 t.h ++ ":" ++ padNum 2 t.mi ++ ":" ++ padNum 2 t.s ++
    (if t.us = 0 then "" else "." ++ padNum 6 t.us)

/-- Models Python's `str()` on a 6-tuple of ints:
`"(y, mo, d, h, mi, s)"`. -/
def tupleRepr (t : DT6) : String :=
  "(" ++ natRepr t.y ++ ", " ++ natRepr t.mo ++ ", " ++ natRepr t.d ++ ", " ++
    natRepr t.h ++ ", " ++ natRepr t.mi ++ ", " ++ natRepr t.s ++ ")"

/-- The dynamically typed `size` variable of the walkers: an integer byte
count, or one of the sentinel strings `"FOLDER"` / `"ZIP"`. -/
inductive SizeVal where
  | int (n : Nat)
  | str (s : String)
deriving DecidableEq

/-- Python's `str()` on a `size` value (`folder_analyze.py`, line 50). -/
def strOfSize : SizeVal → String
  | SizeVal.int n => natRepr n
  | SizeVal.str s => s

/-- The dynamically typed `time` variable: an ISO string at the
filesystem layer, a `date_time` 6-tuple inside an archive. -/
inductive TimeVal where
  | str (s : String)
  | tup (t : DT6)
deriving DecidableEq

/-- Python's `str()` on a `time` value (`folder_analyze.py`, line 51). -/
def strOfTime : TimeVal → String
  | TimeVal.str s => s
  | TimeVal.tup t => tupleRepr t

/-- The report element class `Item` (`folder_analyze.py`, lines 27-51):
all four serialized fields plus the computed nesting level. -/
structure Item where
  path : String
  level : Int
  name : String
  size : String
  time : String
deriving DecidableEq

/-- `Item.__init__` (`folder_analyze.py`, lines 37-51):
`level = path.count('\\') - root_path.count('\\') - 1`,
`name = path.split('\\')[-1]`, `size = str(size)`, `time = str(time)`. -/
def Item.init (root_path : String) (path : String) (size : SizeVal)
    (time : TimeVal) : Item :=
  { path := path
    level := (countChar path sepChar : Int) - (countChar root_path sepChar : Int) - 1
    name := lastComponent path
    size := strOfSize size
    time := strOfTime time }

mutual
/-- One member record of an open ZIP archive, as seen through
`zipf.infolist()`: internal name, uncompressed size, `date_time`, and —
since `zipfile.ZipFile` on its decompressed bytes either succeeds or
raises `BadZipFile` — `asZip = some members` when the member's bytes form
a valid ZIP archive with those records, `none` otherwise (directory
members decompress to `b''`, which is not a valid archive). -/
inductive ZEntry where
  | mk (filename : String) (file_size : Nat) (date_time : DT6)
      (asZip : Option ZList)
/-- The record list of one archive (a mutual list so that the walkers
can recurse structurally). -/
inductive ZList where
  | nil
  | cons (hd : ZEntry) (tl : ZList)
end

/-- Internal name of the record. -/
def ZEntry.filename : ZEntry → String
  | ZEntry.mk fn _ _ _ => fn

/-- Stored uncompressed size of the record. -/
def ZEntry.file_size : ZEntry → Nat
  | ZEntry.mk _ fs _ _ => fs

/-- `date_time` tuple of the record. -/
def ZEntry.date_time : ZEntry → DT6
  | ZEntry.mk _ _ dt _ => dt

/-- Contents of the record when it opens as a nested archive. -/
def ZEntry.asZip : ZEntry → Option ZList
  | ZEntry.mk _ _ _ az => az

/-- The record list as an ordinary `List` (for stating properties). -/
def ZList.toList : ZList → List ZEntry
  | ZList.nil => []
  | ZList.cons e es => e :: ZList.toList es

/-- The `size` value computed for one archive record by the sequential
assignments of `analyze_zip` (`folder_analyze.py`, lines 81-90):
start from `file_size`, overwrite with `'FOLDER'` when the internal name
ends in `'/'`, then overwrite with `'ZIP'` when the joined path's
lower-cased suffix is `.zip`. -/
def zipSizeTok (fn : String) (path : String) (fs : Nat) : SizeVal :=
  let size0 := SizeVal.int fs
  let size1 := if endsWithChar fn '/' then SizeVal.str "FOLDER" else size0
  if suffixLower path = ".zip" then SizeVal.str "ZIP" else size1

/-- `analyze_zip` (`folder_analyze.py`, lines 65-100): walk the member
records of an open archive rooted at virtual path `zip_root`, recursing
into members classified as nested archives before appending their own
`Item`.  A member classified `.zip` that does not open as an archive
raises `BadZipFile` and aborts the walk. -/
def analyze_zip (root : String) : ZList → String → Except String (List Item)
  | ZList.nil, _ => Except.ok []
  | ZList.cons (ZEntry.mk fn fs dt az) rest, zip_root =>
    let path := pathJoin zip_root fn
    let size := zipSizeTok fn path fs
    if suffixLower path = ".zip" then
      match az with
      | none => Except.error "BadZipFile"
      | some inner =>
        match analyze_zip root inner path with
        | Except.error e => Except.error e
        | Except.ok innerItems =>
          match analyze_zip root rest zip_root with
          | Except.error e => Except.error e
          | Except.ok restItems =>
            Except.ok (innerItems ++ Item.init root path size (TimeVal.tup dt) :: restItems)
    else
      match analyze_zip root rest zip_root with
      | Except.error e => Except.error e
      | Except.ok restItems =>
        Except.ok (Item.init root path size (TimeVal.tup dt) :: restItems)

mutual
/-- A node of the modelled filesystem tree.  A `file` carries
`asZip = some members` exactly when `zipfile.ZipFile` would open it as a
valid archive with those records.  A `symlink` carries the subtree its
target would expose; the enumeration never descends into it. -/
inductive FSTree where
  | file (name : String) (st_size : Nat) (mtime : PyDT)
      (asZip : Option ZList)
  | dir (name : String) (st_size : Nat) (mtime : PyDT) (children : FSList)
  | symlink (name : String) (st_size : Nat) (mtime : PyDT)
      (target : FSList)
/-- A sibling list of filesystem nodes (a mutual list so that the
enumeration can recurse structurally). -/
inductive FSList where
  | nil
  | cons (hd : FSTree) (tl : FSList)
end

/-- The name of a tree node. -/
def FSTree.name : FSTree → String
  | FSTree.file n _ _ _ => n
  | FSTree.dir n _ _ _ => n
  | FSTree.symlink n _ _ _ => n

/-- The sibling list as an ordinary `List` (for stating properties). -/
def FSList.toList : FSList → List FSTree
  | FSList.nil => []
  | FSList.cons t ts => t :: FSList.toList ts

/-- What one `path` yielded by `root.rglob('*')` answers to the queries
`analyze_folder` makes of it: `is_symlink()`, `is_dir()`,
`stat().st_size`, `stat().st_mtime` (as the `datetime` it converts to),
and whether `zipfile.ZipFile(path)` opens (directories and non-archives
do not). -/
structure FSNode where
  path : String
  is_symlink : Bool
  is_dir : Bool
  st_size : Nat
  mtime : PyDT
  asZip : Option ZList

/-- `Path.rglob('*')`: depth-first enumeration of every descendant of
`parent`.  Per pathlib's documented behaviour (and the program's stated
intent), the walk does not descend through symbolic links: a `symlink`
node contributes only itself, never its target's subtree. -/
def rglob (parent : String) : FSList → List FSNode
  | FSList.nil => []
  | FSList.cons (FSTree.file name st mt az) rest =>
    { path := pathJoin parent name, is_symlink := false, is_dir := false,
      st_size := st, mtime := mt, asZip := az } :: rglob parent rest
  | FSList.cons (FSTree.dir name st mt ch) rest =>
    { path := pathJoin parent name, is_symlink := false, is_dir := true,
      st_size := st, mtime := mt, asZip := none } ::
      (rglob (pathJoin parent name) ch ++ rglob parent rest)
  | FSList.cons (FSTree.symlink name st mt _tgt) rest =>
    { path := pathJoin parent name, is_symlink := true, is_dir := false,
      st_size := st, mtime := mt, asZip := none } :: rglob parent rest

/-- Removal of every symbolic-link node (with its target subtree) from a
filesystem tree. -/
def pruneSymlinks : FSList → FSList
  | FSList.nil => FSList.nil
  | FSList.cons (FSTree.file name st mt az) rest =>
    FSList.cons (FSTree.file name st mt az) (pruneSymlinks rest)
  | FSList.cons (FSTree.dir name st mt ch) rest =>
    FSList.cons (FSTree.dir name st mt (pruneSymlinks ch)) (pruneSymlinks rest)
  | FSList.cons (FSTree.symlink _ _ _ _) rest => pruneSymlinks rest

/-- The `size` value computed for one filesystem object by the
sequential assignments of `analyze_folder` (`folder_analyze.py`,
lines 120-129): start from `st_size`, overwrite with `'FOLDER'` for a
directory, then overwrite with `'ZIP'` when the lower-cased suffix is
`.zip`. -/
def fsSizeTok (is_dir : Bool) (path : String) (st : Nat) : SizeVal :=
  let size0 := SizeVal.int st
  let size1 := if is_dir then SizeVal.str "FOLDER" else size0
  if suffixLower path = ".zip" then SizeVal.str "ZIP" else size1

/-- The loop body of `analyze_folder` (`folder_analyze.py`,
lines 115-135) over the enumeration produced by `root.rglob('*')`:
skip symbolic links; classify each object by the sequential `size`
assignments; on a `.zip` suffix open the archive (aborting the scan when
that raises) and splice `analyze_zip`'s items in before the object's own
`Item`. -/
def analyze_folder_raw (root : String) : List FSNode → Except String (List Item)
  | [] => Except.ok []
  | n :: rest =>
    if n.is_symlink then analyze_folder_raw root rest
    else
      let time := TimeVal.str (isoformat n.mtime)
      let size := fsSizeTok n.is_dir n.path n.st_size
      if suffixLower n.path = ".zip" then
        match n.asZip with
        | none => Except.error "zipfile cannot open"
        | some members =>
          match analyze_zip root members n.path with
          | Except.error e => Except.error e
          | Except.ok zipItems =>
            match analyze_folder_raw root rest with
            | Except.error e => Except.error e
            | Except.ok restItems =>
              Except.ok (zipItems ++ Item.init root n.path size time :: restItems)
      else
        match analyze_folder_raw root rest with
        | Except.error e => Except.error e
        | Except.ok restItems => Except.ok (Item.init root n.path size time :: restItems)

/-- Code-point comparison of character lists: `charsLe as bs = true`
iff `as ≤ bs` in the lexicographic order Python uses for `str`. -/
def charsLe : List Char → List Char → Bool
  | [], _ => true
  | _ :: _, [] => false
  | a :: as, b :: bs =>
    if a.toNat < b.toNat then true
    else if a.toNat = b.toNat then charsLe as bs
    else false

/-- `strLeB a b = true` iff `a ≤ b` as Python compares strings. -/
def strLeB (a b : String) : Bool :=
  charsLe a.data b.data

/-- The sort key relation of `items.sort(key=lambda x: x.path.lower())`
(`folder_analyze.py`, line 138): case-insensitive comparison of `path`. -/
def itemLe (a b : Item) : Prop :=
  strLeB (strLower a.path) (strLower b.path) = true

instance : DecidableRel itemLe := fun _ _ =>
  inferInstanceAs (Decidable (_ = true))

instance : IsTotal Item itemLe := by
  constructor
  intro a b
  unfold itemLe strLeB
  generalize (strLower a.path).data = x
  generalize (strLower b.path).data = y
  induction x generalizing y with
  | nil => exact Or.inl rfl
  | cons c cs ih =>
    cases y with
    | nil => exact Or.inr rfl
    | cons d ds =>
      rcases Nat.lt_trichotomy c.toNat d.toNat with h | h | h
      · left; simp [charsLe, h]
      · rcases ih ds with h2 | h2 <;>
          [left; right] <;> simp [charsLe, h, h2, Nat.lt_irrefl]
      · right; simp [charsLe, h]

instance : IsTrans Item itemLe := by
  constructor
  intro a b c
  unfold itemLe strLeB
  generalize (strLower a.path).data = x
  generalize (strLower b.path).data = y
  generalize (strLower c.path).data = z
  induction x generalizing y z with
  | nil => intro _ _; rfl
  | cons c1 cs ih =>
    cases y with
    | nil => intro h1; simp [charsLe] at h1
    | cons d ds =>
      cases z with
      | nil => intro _ h2; simp [charsLe] at h2
      | cons e es =>
        intro h1 h2
        simp only [charsLe] at h1 h2 ⊢
        split at h1
        · rename_i hab
          split at h2
          · rename_i hbc
            have : c1.toNat < e.toNat := Nat.lt_trans hab hbc
            simp [this]
          · rename_i hbc
            split at h2
            · rename_i hbc2
              have : c1.toNat < e.toNat := hbc2 ▸ hab
              simp [this]
            · simp at h2
        · split at h1
          · rename_i hab hab2
            split at h2
            · rename_i hbc
              have : c1.toNat < e.toNat := hab2 ▸ hbc
              simp [this]
            · split at h2
              · rename_i hbc hbc2
                have hac : c1.toNat = e.toNat := hab2.trans hbc2
                have hnlt : ¬ c1.toNat < e.toNat := by omega
                simp [hnlt, hac, ih ds es h1 h2]
              · simp at h2
          · simp at h1

/-- `analyze_folder` (`folder_analyze.py`, lines 103-139): enumerate with
`rglob`, process each object, then sort the whole report by the
lower-cased `path`.  Python's `list.sort` is a stable sort by the key;
it is modelled by insertion sort over `itemLe`, which is stable and
produces the same list. -/
def analyze_folder (root : String) (trees : FSList) : Except String (List Item) :=
  (analyze_folder_raw root (rglob root trees)).map
    (fun items => List.insertionSort itemLe items)

/-- The observable outcome of `main` (`folder_analyze.py`,
lines 269-312): an invalid-root message, an unsupported-format message,
or a report written by the renderer selected for `fmt`.  In the two
error outcomes no writer is invoked and no output file is produced. -/
inductive MainOutcome where
  | errRoot
  | errFormat (ex : String)
  | wrote (fmt : String)
deriving DecidableEq

/-- The supported report extensions of the `match` in `main`. -/
def supportedExts : List String :=
  [".docx", ".xlsx", ".pdf", ".csv", ".json"]

/-- `main` (`folder_analyze.py`, lines 269-312), as the decision
structure it applies to its two inputs: `ex = report_path.suffix.lower()`;
reject a root that is not an existing directory; otherwise dispatch on
`ex`, writing a report only for the five supported extensions and
reporting an error (writing nothing) for every other extension.  The
scan itself runs before the dispatch but no file is written on the error
path. -/
def main_model (path_is_dir path_exists : Bool) (report_path : String) : MainOutcome :=
  let ex := suffixLower report_path
  if !path_is_dir || !path_exists then MainOutcome.errRoot
  else if ex = ".docx" then MainOutcome.wrote ".docx"
  else if ex = ".xlsx" then MainOutcome.wrote ".xlsx"
  else if ex = ".pdf" then MainOutcome.wrote ".pdf"
  else if ex = ".csv" then MainOutcome.wrote ".csv"
  else if ex = ".json" then MainOutcome.wrote ".json"
  else MainOutcome.errFormat ex

/-- JSON values, as far as `json.dump` shapes them for this report. -/
inductive Json where
  | str (s : String)
  | num (n : Int)
  | arr (xs : List Json)
  | obj (fields : List (String × Json))

/-- The dictionary built for one `Item` by `write_json`
(`folder_analyze.py`, lines 251-258). -/
def itemJson (d : Item) : Json :=
  Json.obj [("level", Json.num d.level), ("name", Json.str d.name),
    ("size", Json.str d.size), ("time", Json.str d.time),
    ("path", Json.str d.path)]

/-- `write_json` (`folder_analyze.py`, lines 238-266): the JSON document
it serializes — the root label under `"folder"` and one object per
`Item`, in sequence order, under `"items"`. -/
def write_json (folder_path : String) (data : List Item) : Json :=
  Json.obj [("folder", Json.str folder_path),
    ("items", Json.arr (data.map itemJson))]

/-! ### Concrete inputs for witnesses and counterexamples -/

/-- A filesystem timestamp used in concrete scans. -/
def dt0 : PyDT := ⟨2024, 1, 2, 3, 4, 5, 0⟩

/-- An archive-member timestamp used in concrete scans. -/
def t60 : DT6 := ⟨2024, 1, 2, 3, 4, 6⟩

/-- The tree `root/a/b/file.txt` of the specification's level example. -/
def c1trees : FSList :=
  FSList.cons (FSTree.dir "a" 0 dt0
    (FSList.cons (FSTree.dir "b" 0 dt0
      (FSList.cons (FSTree.file "file.txt" 7 dt0 none) FSList.nil)) FSList.nil)) FSList.nil

/-- A root containing exactly the files `Z.txt` and `a.txt`. -/
def c2trees : FSList :=
  FSList.cons (FSTree.file "Z.txt" 1 dt0 none)
    (FSList.cons (FSTree.file "a.txt" 2 dt0 none) FSList.nil)

/-- A one-member archive: `x.txt` of 3 bytes. -/
def c3members : ZList := ZList.cons (ZEntry.mk "x.txt" 3 t60 none) ZList.nil

/-- The enumerated node of a real archive file `o.zip` holding
`c3members`. -/
def c3node : FSNode :=
  { path := "C:\\r\\o.zip", is_symlink := false, is_dir := false,
    st_size := 10, mtime := dt0, asZip := some c3members }

/-- A one-member archive whose member `b.zip` is an empty nested
archive. -/
def c4zs : ZList := ZList.cons (ZEntry.mk "b.zip" 999 t60 (some ZList.nil)) ZList.nil

/-- The enumerated node of a real directory named `d.zip`. -/
def c9node : FSNode :=
  { path := "C:\\r9\\d.zip", is_symlink := false, is_dir := true,
    st_size := 0, mtime := dt0, asZip := none }

/-! ### Helper lemmas -/

/-- Every `Item` in the result of `analyze_zip` was built by
`Item.init` with the scan root, a joined member path, the sequential
size token of that member, and the member's `date_time` tuple. -/
theorem analyze_zip_items_shape (root : String) :
    ∀ (zs : ZList) (zr : String) (items : List Item),
      analyze_zip root zs zr = Except.ok items →
      ∀ it ∈ items, ∃ fn fs dt p,
        it = Item.init root p (zipSizeTok fn p fs) (TimeVal.tup dt)
  | ZList.nil => by
    intro zr items h it hit
    simp only [analyze_zip] at h
    cases h
    simp at hit
  | ZList.cons (ZEntry.mk fn fs dt none) rest => by
    intro zr items h it hit
    simp only [analyze_zip] at h
    split at h
    · cases h
    · cases hr : analyze_zip root rest zr with
      | error e => rw [hr] at h; cases h
      | ok restItems =>
        rw [hr] at h
        cases h
        rcases List.mem_cons.mp hit with rfl | hmem
        · exact ⟨fn, fs, dt, pathJoin zr fn, rfl⟩
        · exact analyze_zip_items_shape root rest zr restItems hr it hmem
  | ZList.cons (ZEntry.mk fn fs dt (some inner)) rest => by
    intro zr items h it hit
    simp only [analyze_zip] at h
    split at h
    · cases hi : analyze_zip root inner (pathJoin zr fn) with
      | error e => rw [hi] at h; cases h
      | ok innerItems =>
        rw [hi] at h
        cases hr : analyze_zip root rest zr with
        | error e => rw [hr] at h; cases h
        | ok restItems =>
          rw [hr] at h
          cases h
          rcases List.mem_append.mp hit with hmem | hmem
          · exact analyze_zip_items_shape root inner (pathJoin zr fn) innerItems hi it hmem
          · rcases List.mem_cons.mp hmem with rfl | hmem'
            · exact ⟨fn, fs, dt, pathJoin zr fn, rfl⟩
            · exact analyze_zip_items_shape root rest zr restItems hr it hmem'
    · cases hr : analyze_zip root rest zr with
      | error e => rw [hr] at h; cases h
      | ok restItems =>
        rw [hr] at h
        cases h
        rcases List.mem_cons.mp hit with rfl | hmem
        · exact ⟨fn, fs, dt, pathJoin zr fn, rfl⟩
        · exact analyze_zip_items_shape root rest zr restItems hr it hmem

/-- In the sequence produced by `analyze_zip`, the items of a nested
archive member form a contiguous block appearing immediately before the
member's own `Item`. -/
theorem analyze_zip_splice (root : String) :
    ∀ (zs : ZList) (zr : String) (items : List Item),
      analyze_zip root zs zr = Except.ok items →
      ∀ e ∈ zs.toList, ∀ ic, e.asZip = some ic →
        suffixLower (pathJoin zr e.filename) = ".zip" →
        ∃ innerItems pre post,
          analyze_zip root ic (pathJoin zr e.filename) = Except.ok innerItems ∧
          items = pre ++ innerItems ++
            Item.init root (pathJoin zr e.filename)
              (zipSizeTok e.filename (pathJoin zr e.filename) e.file_size)
              (TimeVal.tup e.date_time) :: post
  | ZList.nil => by
    intro zr items _ e he
    simp [ZList.toList] at he
  | ZList.cons (ZEntry.mk fn fs dt none) rest => by
    intro zr items h e he ic hic hsuf
    simp only [analyze_zip] at h
    rcases List.mem_cons.mp he with rfl | hmem
    · cases hic
    · split at h
      · cases h
      · cases hr : analyze_zip root rest zr with
        | error e2 => rw [hr] at h; cases h
        | ok restItems =>
          rw [hr] at h
          cases h
          rcases analyze_zip_splice root rest zr restItems hr e hmem ic hic hsuf with
            ⟨ii, pre, post, hii, hsplit⟩
          exact ⟨ii, Item.init root (pathJoin zr fn)
            (zipSizeTok fn (pathJoin zr fn) fs) (TimeVal.tup dt) :: pre, post, hii,
            by simp [hsplit]⟩
  | ZList.cons (ZEntry.mk fn fs dt (some inner0)) rest => by
    intro zr items h e he ic hic hsuf
    simp only [analyze_zip] at h
    rcases List.mem_cons.mp he with rfl | hmem
    · simp only [ZEntry.asZip, Option.some.injEq] at hic
      subst hic
      simp only [ZEntry.filename] at hsuf
      rw [if_pos hsuf] at h
      cases hi : analyze_zip root inner0 (pathJoin zr fn) with
      | error e2 => rw [hi] at h; cases h
      | ok innerItems =>
        rw [hi] at h
        cases hr : analyze_zip root rest zr with
        | error e2 => rw [hr] at h; cases h
        | ok restItems =>
          rw [hr] at h
          cases h
          exact ⟨innerItems, [], restItems, hi, by simp [ZEntry.filename,
            ZEntry.file_size, ZEntry.date_time]⟩
    · split at h
      · cases hi : analyze_zip root inner0 (pathJoin zr fn) with
        | error e2 => rw [hi] at h; cases h
        | ok innerItems0 =>
          rw [hi] at h
          cases hr : analyze_zip root rest zr with
          | error e2 => rw [hr] at h; cases h
          | ok restItems =>
            rw [hr] at h
            cases h
            rcases analyze_zip_splice root rest zr restItems hr e hmem ic hic hsuf with
              ⟨ii, pre, post, hii, hsplit⟩
            exact ⟨ii, innerItems0 ++ Item.init root (pathJoin zr fn)
              (zipSizeTok fn (pathJoin zr fn) fs) (TimeVal.tup dt) :: pre, post, hii,
              by simp [hsplit]⟩
      · cases hr : analyze_zip root rest zr with
        | error e2 => rw [hr] at h; cases h
        | ok restItems =>
          rw [hr] at h
          cases h
          rcases analyze_zip_splice root rest zr restItems hr e hmem ic hic hsuf with
            ⟨ii, pre, post, hii, hsplit⟩
          exact ⟨ii, Item.init root (pathJoin zr fn)
            (zipSizeTok fn (pathJoin zr fn) fs) (TimeVal.tup dt) :: pre, post, hii,
            by simp [hsplit]⟩

/-- A member whose joined path is classified `.zip` but whose bytes do
not open as an archive (in particular, a folder record named `*.zip`)
aborts the whole archive walk with an error. -/
theorem analyze_zip_bad_member (root : String) :
    ∀ (zs : ZList) (zr : String), ∀ e ∈ zs.toList,
      e.asZip = none → suffixLower (pathJoin zr e.filename) = ".zip" →
      ∃ err, analyze_zip root zs zr = Except.error err
  | ZList.nil => by
    intro zr e he
    simp [ZList.toList] at he
  | ZList.cons (ZEntry.mk fn fs dt az) rest => by
    intro zr e he hnone hsuf
    rcases List.mem_cons.mp he with rfl | hmem
    · simp only [ZEntry.asZip] at hnone
      cases hnone
      simp only [ZEntry.filename] at hsuf
      exact ⟨"BadZipFile", by simp only [analyze_zip]; rw [if_pos hsuf]⟩
    · rcases analyze_zip_bad_member root rest zr e hmem hnone hsuf with ⟨err, herr⟩
      cases az with
      | none =>
        by_cases hs : suffixLower (pathJoin zr fn) = ".zip"
        · exact ⟨"BadZipFile", by simp only [analyze_zip]; rw [if_pos hs]⟩
        · exact ⟨err, by simp only [analyze_zip]; rw [if_neg hs, herr]⟩
      | some inner0 =>
        by_cases hs : suffixLower (pathJoin zr fn) = ".zip"
        · cases hi : analyze_zip root inner0 (pathJoin zr fn) with
          | error e2 =>
            exact ⟨e2, by simp only [analyze_zip]; rw [if_pos hs, hi]⟩
          | ok ii =>
            exact ⟨err, by simp only [analyze_zip]; rw [if_pos hs, hi, herr]⟩
        · exact ⟨err, by simp only [analyze_zip]; rw [if_neg hs, herr]⟩

/-- Directories never open as archives: every enumerated directory node
carries `asZip = none`. -/
theorem rglob_dir_asZip_none :
    ∀ (ts : FSList) (parent : String), ∀ n ∈ rglob parent ts,
      n.is_dir = true → n.asZip = none
  | FSList.nil => by
    intro parent n hn
    simp [rglob] at hn
  | FSList.cons (FSTree.file name st mt az) rest => by
    intro parent n hn hd
    rcases List.mem_cons.mp hn with rfl | hmem
    · cases hd
    · exact rglob_dir_asZip_none rest parent n hmem hd
  | FSList.cons (FSTree.dir name st mt ch) rest => by
    intro parent n hn hd
    rcases List.mem_cons.mp hn with rfl | hmem
    · rfl
    · rcases List.mem_append.mp hmem with hch | hrest
      · exact rglob_dir_asZip_none ch (pathJoin parent name) n hch hd
      · exact rglob_dir_asZip_none rest parent n hrest hd
  | FSList.cons (FSTree.symlink name st mt tgt) rest => by
    intro parent n hn hd
    rcases List.mem_cons.mp hn with rfl | hmem
    · cases hd
    · exact rglob_dir_asZip_none rest parent n hmem hd

/-- Every `Item` produced by the folder loop was built by `Item.init`
with the scan root, and its `time` argument is either the ISO string of
a filesystem timestamp or the `date_time` tuple of an archive member. -/
theorem raw_items_shape (root : String) :
    ∀ (nodes : List FSNode) (items : List Item),
      analyze_folder_raw root nodes = Except.ok items →
      ∀ it ∈ items,
        (∃ p sv t, it = Item.init root p sv (TimeVal.str (isoformat t))) ∨
        (∃ p sv t6, it = Item.init root p sv (TimeVal.tup t6))
  | [] => by
    intro items h it hit
    cases h
    simp at hit
  | n :: rest => by
    intro items h it hit
    simp only [analyze_folder_raw] at h
    by_cases hs : n.is_symlink = true
    · rw [if_pos hs] at h
      exact raw_items_shape root rest items h it hit
    · rw [if_neg hs] at h
      by_cases hz : suffixLower n.path = ".zip"
      · rw [if_pos hz] at h
        split at h
        · cases h
        · rename_i members haz
          split at h
          · cases h
          · rename_i zipItems hzi
            split at h
            · cases h
            · rename_i restItems hraw
              cases h
              rcases List.mem_append.mp hit with hmem | hmem
              · rcases analyze_zip_items_shape root members n.path zipItems hzi it hmem with
                  ⟨fn, fs, dt, p, rfl⟩
                exact Or.inr ⟨p, zipSizeTok fn p fs, dt, rfl⟩
              · rcases List.mem_cons.mp hmem with rfl | hmem2
                · exact Or.inl ⟨n.path, fsSizeTok n.is_dir n.path n.st_size, n.mtime, rfl⟩
                · exact raw_items_shape root rest restItems hraw it hmem2
      · rw [if_neg hz] at h
        split at h
        · cases h
        · rename_i restItems hraw
          cases h
          rcases List.mem_cons.mp hit with rfl | hmem
          · exact Or.inl ⟨n.path, fsSizeTok n.is_dir n.path n.st_size, n.mtime, rfl⟩
          · exact raw_items_shape root rest restItems hraw it hmem

/-- Symbolic links contribute nothing: the folder loop over any
enumeration equals the loop over the enumeration with all symlink nodes
removed. -/
theorem raw_filter_symlinks (root : String) :
    ∀ nodes : List FSNode,
      analyze_folder_raw root nodes =
        analyze_folder_raw root (nodes.filter (fun n => !n.is_symlink))
  | [] => rfl
  | n :: rest => by
    have ih := raw_filter_symlinks root rest
    cases hs : n.is_symlink with
    | true => simpa [analyze_folder_raw, List.filter_cons, hs] using ih
    | false => simp [analyze_folder_raw, List.filter_cons, hs, ih]

/-- In the raw (pre-sort) sequence of the folder loop, the items of an
archive's contents form a contiguous block appearing immediately before
the archive's own `Item`. -/
theorem raw_zip_splice (root : String) :
    ∀ (nodes : List FSNode) (items : List Item),
      analyze_folder_raw root nodes = Except.ok items →
      ∀ n ∈ nodes, n.is_symlink = false → suffixLower n.path = ".zip" →
        ∀ ms, n.asZip = some ms →
        ∃ zipItems pre post,
          analyze_zip root ms n.path = Except.ok zipItems ∧
          items = pre ++ zipItems ++
            Item.init root n.path (fsSizeTok n.is_dir n.path n.st_size)
              (TimeVal.str (isoformat n.mtime)) :: post
  | [] => by
    intro items _ n hn
    simp at hn
  | n0 :: rest => by
    intro items h n hn hns hsuf ms hms
    simp only [analyze_folder_raw] at h
    rcases List.mem_cons.mp hn with rfl | hmem
    · rw [hns] at h
      simp only [Bool.false_eq_true, if_false] at h
      rw [if_pos hsuf] at h
      split at h
      · rename_i haz
        rw [hms] at haz
        cases haz
      · rename_i members haz
        rw [hms] at haz
        injection haz with h2
        subst h2
        split at h
        · cases h
        · rename_i zipItems hzi
          split at h
          · cases h
          · rename_i restItems hraw
            cases h
            exact ⟨zipItems, [], restItems, hzi, by simp⟩
    · by_cases hs : n0.is_symlink = true
      · rw [if_pos hs] at h
        exact raw_zip_splice root rest items h n hmem hns hsuf ms hms
      · rw [if_neg hs] at h
        by_cases hz : suffixLower n0.path = ".zip"
        · rw [if_pos hz] at h
          split at h
          · cases h
          · rename_i members0 haz
            split at h
            · cases h
            · rename_i zipItems0 hzi0
              split at h
              · cases h
              · rename_i restItems hraw
                cases h
                rcases raw_zip_splice root rest restItems hraw n hmem hns hsuf ms hms with
                  ⟨zi, pre, post, hzi, hsplit⟩
                exact ⟨zi, zipItems0 ++ Item.init root n0.path
                  (fsSizeTok n0.is_dir n0.path n0.st_size)
                  (TimeVal.str (isoformat n0.mtime)) :: pre, post, hzi,
                  by simp [hsplit]⟩
        · rw [if_neg hz] at h
          split at h
          · cases h
          · rename_i restItems hraw
            cases h
            rcases raw_zip_splice root rest restItems hraw n hmem hns hsuf ms hms with
              ⟨zi, pre, post, hzi, hsplit⟩
            exact ⟨zi, Item.init root n0.path
              (fsSizeTok n0.is_dir n0.path n0.st_size)
              (TimeVal.str (isoformat n0.mtime)) :: pre, post, hzi,
              by simp [hsplit]⟩

/-- A non-symlink object classified `.zip` that does not open as an
archive (in particular a real directory named `*.zip`) aborts the whole
scan with an error. -/
theorem raw_bad_zip_error (root : String) :
    ∀ (nodes : List FSNode), ∀ n ∈ nodes,
      n.is_symlink = false → suffixLower n.path = ".zip" → n.asZip = none →
      ∃ err, analyze_folder_raw root nodes = Except.error err
  | [] => by
    intro n hn
    simp at hn
  | n0 :: rest => by
    intro n hn hns hsuf hnone
    rcases List.mem_cons.mp hn with rfl | hmem
    · exact ⟨"zipfile cannot open", by
        simp [analyze_folder_raw, hns, hsuf, hnone]⟩
    · rcases raw_bad_zip_error root rest n hmem hns hsuf hnone with ⟨err, herr⟩
      by_cases hs : n0.is_symlink = true
      · exact ⟨err, by simp [analyze_folder_raw, hs, herr]⟩
      · by_cases hz : suffixLower n0.path = ".zip"
        · cases haz : n0.asZip with
          | none =>
            exact ⟨"zipfile cannot open", by
              simp [analyze_folder_raw, hs, hz, haz]⟩
          | some members0 =>
            cases hzi0 : analyze_zip root members0 n0.path with
            | error e =>
              exact ⟨e, by simp [analyze_folder_raw, hs, hz, haz, hzi0]⟩
            | ok zipItems0 =>
              exact ⟨err, by simp [analyze_folder_raw, hs, hz, haz, hzi0, herr]⟩
        · exact ⟨err, by simp [analyze_folder_raw, hs, hz, herr]⟩

/-- The folder loop emits, for every non-symlink enumerated object, that
object's own `Item` — built with the ISO rendering of its filesystem
timestamp — somewhere in the produced sequence. -/
theorem raw_fs_entry (root : String) :
    ∀ (nodes : List FSNode) (items : List Item),
      analyze_folder_raw root nodes = Except.ok items →
      ∀ n ∈ nodes, n.is_symlink = false →
      ∃ pre post, items = pre ++
        Item.init root n.path (fsSizeTok n.is_dir n.path n.st_size)
          (TimeVal.str (isoformat n.mtime)) :: post
  | [] => by
    intro items _ n hn
    simp at hn
  | n0 :: rest => by
    intro items h n hn hns
    simp only [analyze_folder_raw] at h
    rcases List.mem_cons.mp hn with rfl | hmem
    · rw [hns] at h
      simp only [Bool.false_eq_true, if_false] at h
      by_cases hz : suffixLower n.path = ".zip"
      · rw [if_pos hz] at h
        split at h
        · cases h
        · rename_i members haz
          split at h
          · cases h
          · rename_i zipItems hzi
            split at h
            · cases h
            · rename_i restItems hraw
              cases h
              exact ⟨zipItems, restItems, by simp⟩
      · rw [if_neg hz] at h
        split at h
        · cases h
        · rename_i restItems hraw
          cases h
          exact ⟨[], restItems, by simp⟩
    · by_cases hs : n0.is_symlink = true
      · rw [if_pos hs] at h
        exact raw_fs_entry root rest items h n hmem hns
      · rw [if_neg hs] at h
        by_cases hz : suffixLower n0.path = ".zip"
        · rw [if_pos hz] at h
          split at h
          · cases h
          · rename_i members0 haz
            split at h
            · cases h
            · rename_i zipItems0 hzi0
              split at h
              · cases h
              · rename_i restItems hraw
                cases h
                rcases raw_fs_entry root rest restItems hraw n hmem hns with
                  ⟨pre, post, hsplit⟩
                exact ⟨zipItems0 ++ Item.init root n0.path
                  (fsSizeTok n0.is_dir n0.path n0.st_size)
                  (TimeVal.str (isoformat n0.mtime)) :: pre, post,
                  by simp [hsplit]⟩
        · rw [if_neg hz] at h
          split at h
          · cases h
          · rename_i restItems hraw
            cases h
            rcases raw_fs_entry root rest restItems hraw n hmem hns with
              ⟨pre, post, hsplit⟩
            exact ⟨Item.init root n0.path
              (fsSizeTok n0.is_dir n0.path n0.st_size)
              (TimeVal.str (isoformat n0.mtime)) :: pre, post,
              by simp [hsplit]⟩

theorem natDigsAux_digits :
    ∀ f n, ∀ c ∈ natDigsAux f n, ∃ k, k < 10 ∧ c = digitChar k
  | 0, _ => by simp [natDigsAux]
  | _ + 1, 0 => by simp [natDigsAux]
  | f + 1, n + 1 => by
    intro c hc
    simp only [natDigsAux] at hc
    rcases List.mem_append.mp hc with h | h
    · exact natDigsAux_digits f ((n + 1) / 10) c h
    · simp only [List.mem_singleton] at h
      exact ⟨(n + 1) % 10, Nat.mod_lt _ (by omega), h⟩

theorem natRepr_digits (n : Nat) : ∀ c ∈ (natRepr n).data, ∃ k, k < 10 ∧ c = digitChar k := by
  intro c hc
  unfold natRepr at hc
  by_cases h : n = 0
  · rw [if_pos h] at hc
    have hz : ("0" : String).data = ['0'] := rfl
    rw [hz] at hc
    simp only [List.mem_singleton] at hc
    exact ⟨0, by omega, by rw [hc]; decide⟩
  · rw [if_neg h] at hc
    exact natDigsAux_digits n n c hc

theorem strData_append (a b : String) : (a ++ b).data = a.data ++ b.data := rfl

theorem strData_mk (l : List Char) : (String.mk l).data = l := rfl

theorem isoformat_data (t : PyDT) :
    ∃ rest, (isoformat t).data = padZeros 4 (natRepr t.y).data ++ rest := by
  simp only [isoformat, padNum, strData_append, strData_mk, List.append_assoc]
  exact ⟨_, rfl⟩

theorem digitChar_ne_paren (k : Nat) (hk : k < 10) : digitChar k ≠ '(' := by
  interval_cases k <;> decide

/-- The first character of `isoformat` output is a decimal digit. -/
theorem isoformat_head (t : PyDT) :
    ∀ c, (isoformat t).data.head? = some c → c ≠ '(' := by
  intro c hc
  rcases isoformat_data t with ⟨rest, hdata⟩
  rw [hdata] at hc
  unfold padZeros at hc
  rcases hrep : 4 - (natRepr t.y).data.length with _ | m
  · have hlen : (natRepr t.y).data.length ≥ 4 := by omega
    rw [hrep, List.replicate_zero, List.nil_append] at hc
    cases hd : (natRepr t.y).data with
    | nil => rw [hd] at hlen; simp at hlen
    | cons c0 cs =>
      rw [hd] at hc
      simp only [List.cons_append, List.head?_cons, Option.some.injEq] at hc
      subst hc
      rcases natRepr_digits t.y c0 (by rw [hd]; exact List.mem_cons_self _ _) with ⟨k, hk, rfl⟩
      exact digitChar_ne_paren k hk
  · rw [hrep, List.replicate_succ] at hc
    simp only [List.cons_append, List.head?_cons, Option.some.injEq] at hc
    subst hc
    decide

/-- The two serialized time formats can never coincide: an ISO string
starts with a digit, a tuple rendering with a parenthesis. -/
theorem isoformat_ne_tupleRepr (t : PyDT) (t6 : DT6) :
    isoformat t ≠ tupleRepr t6 := by
  intro h
  have hh : (isoformat t).data.head? = (tupleRepr t6).data.head? := by rw [h]
  have hpar : (tupleRepr t6).data.head? = some '(' := by
    have : (tupleRepr t6).data = '(' ::
        ((natRepr t6.y ++ ", " ++ natRepr t6.mo ++ ", " ++ natRepr t6.d ++ ", " ++
          natRepr t6.h ++ ", " ++ natRepr t6.mi ++ ", " ++ natRepr t6.s ++ ")").data) := by
      simp only [tupleRepr]
      rfl
    rw [this]
    rfl
  rw [hpar] at hh
  exact isoformat_head t '(' hh rfl

/-- Enumerating the pruned tree is the same as enumerating the original
tree and dropping the symlink nodes themselves: nothing below a symlink
is ever enumerated. -/
theorem rglob_pruneSymlinks :
    ∀ (ts : FSList) (parent : String),
      rglob parent (pruneSymlinks ts) =
        (rglob parent ts).filter (fun n => !n.is_symlink)
  | FSList.nil => by intro parent; rfl
  | FSList.cons (FSTree.file name st mt az) rest => by
    intro parent
    simp [pruneSymlinks, rglob, List.filter_cons, rglob_pruneSymlinks rest parent]
  | FSList.cons (FSTree.dir name st mt ch) rest => by
    intro parent
    simp [pruneSymlinks, rglob, List.filter_cons, List.filter_append,
      rglob_pruneSymlinks ch (pathJoin parent name), rglob_pruneSymlinks rest parent]
  | FSList.cons (FSTree.symlink name st mt tgt) rest => by
    intro parent
    simp [pruneSymlinks, rglob, List.filter_cons, rglob_pruneSymlinks rest parent]

/-- Destructuring `analyze_folder`: a successful scan is the raw loop
result sorted by the lower-cased path. -/
theorem analyze_folder_ok (root : String) (trees : FSList) (items : List Item)
    (h : analyze_folder root trees = Except.ok items) :
    ∃ raw0, analyze_folder_raw root (rglob root trees) = Except.ok raw0 ∧
      items = List.insertionSort itemLe raw0 := by
  unfold analyze_folder at h
  cases hraw : analyze_folder_raw root (rglob root trees) with
  | error e => rw [hraw] at h; cases h
  | ok raw0 =>
    rw [hraw] at h
    cases h
    exact ⟨raw0, rfl, rfl⟩

/-! ### The claims -/

/-- C1: every Entry produced by a scan has
`level = count of separators in its path − count in the root − 1`;
for `root/a/b/file.txt` the scan yields `level(a) = 0`, `level(b) = 1`,
`level(file.txt) = 2`. -/
theorem claim_c1_level_formula :
    (∀ (root : String) (trees : FSList) (items : List Item),
        analyze_folder root trees = Except.ok items →
        ∀ it ∈ items,
          it.level = (countChar it.path sepChar : Int) -
            (countChar root sepChar : Int) - 1) ∧
    (analyze_folder "C:\\root" c1trees).map
        (List.map (fun it => (it.name, it.level))) =
      Except.ok [("a", 0), ("b", 1), ("file.txt", 2)] := by
  constructor
  · intro root trees items h it hit
    rcases analyze_folder_ok root trees items h with ⟨raw0, hraw, rfl⟩
    have hmem : it ∈ raw0 :=
      (List.Perm.mem_iff (List.perm_insertionSort itemLe raw0)).mp hit
    rcases raw_items_shape root _ raw0 hraw it hmem with
      ⟨p, sv, t, rfl⟩ | ⟨p, sv, t6, rfl⟩ <;> simp [Item.init]
  · rfl

/-- Witness for C1 at the concrete tree `C:\root\a\b\file.txt`. -/
theorem claim_c1_level_formula_witness :
    (Item.init "C:\\root" "C:\\root\\a\\b" (SizeVal.str "FOLDER")
        (TimeVal.str (isoformat dt0))).level =
      (countChar "C:\\root\\a\\b" sepChar : Int) -
        (countChar "C:\\root" sepChar : Int) - 1 := by
  have h := claim_c1_level_formula.1 "C:\\root" c1trees
    [Item.init "C:\\root" "C:\\root\\a" (SizeVal.str "FOLDER")
        (TimeVal.str (isoformat dt0)),
     Item.init "C:\\root" "C:\\root\\a\\b" (SizeVal.str "FOLDER")
        (TimeVal.str (isoformat dt0)),
     Item.init "C:\\root" "C:\\root\\a\\b\\file.txt" (SizeVal.int 7)
        (TimeVal.str (isoformat dt0))] (by rfl)
  exact h _ (by simp)

/-- C2 counterexample: for a root containing exactly `Z.txt` and
`a.txt`, the final sequence is `[a.txt, Z.txt]` — the Entry for `Z.txt`
does NOT precede the Entry for `a.txt` (the claim's example is
backwards; lower-casing sorts `a` before `z`). -/
theorem claim_c2_counterexample :
    (analyze_folder "C:\\r" c2trees).map (List.map Item.name) =
      Except.ok ["a.txt", "Z.txt"] ∧
    ¬ (["a.txt", "Z.txt"].indexOf "Z.txt" < ["a.txt", "Z.txt"].indexOf "a.txt") :=
  ⟨by rfl, by decide⟩

/-- C2 amended: the final sequence is sorted by case-insensitive
comparison of `path`; in particular, for a root containing `Z.txt` and
`a.txt` the Entry for `a.txt` precedes the Entry for `Z.txt`. -/
theorem claim_c2_sorted :
    (∀ (root : String) (trees : FSList) (items : List Item),
        analyze_folder root trees = Except.ok items → items.Sorted itemLe) ∧
    (analyze_folder "C:\\r" c2trees).map (List.map Item.name) =
      Except.ok ["a.txt", "Z.txt"] := by
  constructor
  · intro root trees items h
    rcases analyze_folder_ok root trees items h with ⟨raw0, _, rfl⟩
    exact List.sorted_insertionSort itemLe raw0
  · rfl

/-- Witness for the amended C2 at the concrete two-file root. -/
theorem claim_c2_sorted_witness :
    ([Item.init "C:\\r" "C:\\r\\a.txt" (SizeVal.int 2) (TimeVal.str (isoformat dt0)),
      Item.init "C:\\r" "C:\\r\\Z.txt" (SizeVal.int 1)
        (TimeVal.str (isoformat dt0))]).Sorted itemLe :=
  claim_c2_sorted.1 "C:\\r" c2trees _ (by rfl)

/-- C3: in the raw, pre-sort sequence built by both walkers, the items
for the contents of a ZIP archive (recursively including nested archive
contents) appear as a contiguous block immediately before the archive's
own Entry. -/
theorem claim_c3_archive_before_entry :
    (∀ (root : String) (zs : ZList) (zr : String) (items : List Item),
        analyze_zip root zs zr = Except.ok items →
        ∀ e ∈ zs.toList, ∀ ic, e.asZip = some ic →
          suffixLower (pathJoin zr e.filename) = ".zip" →
          ∃ innerItems pre post,
            analyze_zip root ic (pathJoin zr e.filename) = Except.ok innerItems ∧
            items = pre ++ innerItems ++
              Item.init root (pathJoin zr e.filename)
                (zipSizeTok e.filename (pathJoin zr e.filename) e.file_size)
                (TimeVal.tup e.date_time) :: post) ∧
    (∀ (root : String) (nodes : List FSNode) (items : List Item),
        analyze_folder_raw root nodes = Except.ok items →
        ∀ n ∈ nodes, n.is_symlink = false → suffixLower n.path = ".zip" →
          ∀ ms, n.asZip = some ms →
          ∃ zipItems pre post,
            analyze_zip root ms n.path = Except.ok zipItems ∧
            items = pre ++ zipItems ++
              Item.init root n.path (fsSizeTok n.is_dir n.path n.st_size)
                (TimeVal.str (isoformat n.mtime)) :: post) :=
  ⟨fun root => analyze_zip_splice root, fun root => raw_zip_splice root⟩

/-- Witness for C3: one archive file containing one plain member. -/
theorem claim_c3_archive_before_entry_witness :
    ∃ zipItems pre post,
      analyze_zip "C:\\r" c3members "C:\\r\\o.zip" = Except.ok zipItems ∧
      [Item.init "C:\\r" "C:\\r\\o.zip\\x.txt" (SizeVal.int 3) (TimeVal.tup t60),
       Item.init "C:\\r" "C:\\r\\o.zip" (SizeVal.str "ZIP")
         (TimeVal.str (isoformat dt0))] =
        pre ++ zipItems ++
          Item.init "C:\\r" c3node.path
            (fsSizeTok c3node.is_dir c3node.path c3node.st_size)
            (TimeVal.str (isoformat c3node.mtime)) :: post := by
  have h := claim_c3_archive_before_entry.2 "C:\\r" [c3node]
    [Item.init "C:\\r" "C:\\r\\o.zip\\x.txt" (SizeVal.int 3) (TimeVal.tup t60),
     Item.init "C:\\r" "C:\\r\\o.zip" (SizeVal.str "ZIP")
       (TimeVal.str (isoformat dt0))] (by rfl) c3node (by simp)
    rfl (by decide) c3members rfl
  exact h

/-- C4 counterexample: a folder record inside an archive whose internal
name is `inner.zip/` ends with the separator marker, yet the code
assigns it the token `ZIP` (not `FOLDER`) and then aborts trying to open
it as an archive — so the claimed FOLDER-first classification is false. -/
theorem claim_c4_counterexample :
    endsWithChar "inner.zip/" '/' = true ∧
    zipSizeTok "inner.zip/" (pathJoin "C:\\r\\o.zip" "inner.zip/") 0 =
      SizeVal.str "ZIP" ∧
    analyze_zip "C:\\r"
      (ZList.cons (ZEntry.mk "inner.zip/" 0 t60 none) ZList.nil) "C:\\r\\o.zip" =
      Except.error "BadZipFile" :=
  ⟨by decide, by decide, by rfl⟩

/-- C4 amended: the token is `ZIP` when the virtual path's lower-cased
extension is `.zip` (this test overrides the FOLDER classification and
ignores the stored size); otherwise `FOLDER` when the internal name ends
with `/`; otherwise the stored uncompressed size.  Consequently every
Entry the Archive Walker emits for a `.zip`-suffixed path carries size
`"ZIP"` regardless of its stored byte size. -/
theorem claim_c4_zip_overrides :
    (∀ (fn p : String) (fs : Nat),
        zipSizeTok fn p fs =
          if suffixLower p = ".zip" then SizeVal.str "ZIP"
          else if endsWithChar fn '/' then SizeVal.str "FOLDER"
          else SizeVal.int fs) ∧
    (∀ (root : String) (zs : ZList) (zr : String) (items : List Item),
        analyze_zip root zs zr = Except.ok items →
        ∀ it ∈ items, suffixLower it.path = ".zip" → it.size = "ZIP") := by
  constructor
  · intro fn p fs
    rfl
  · intro root zs zr items h it hit hsuf
    rcases analyze_zip_items_shape root zs zr items h it hit with ⟨fn, fs, dt, p, rfl⟩
    simp only [Item.init] at hsuf ⊢
    unfold zipSizeTok
    rw [if_pos hsuf]
    rfl

/-- Witness for the amended C4: a nested archive member keeps token
`ZIP` although its stored size is 999. -/
theorem claim_c4_zip_overrides_witness :
    (Item.init "C:\\r" (pathJoin "C:\\r\\o.zip" "b.zip")
        (zipSizeTok "b.zip" (pathJoin "C:\\r\\o.zip" "b.zip") 999)
        (TimeVal.tup t60)).size = "ZIP" := by
  have h := claim_c4_zip_overrides.2 "C:\\r" c4zs "C:\\r\\o.zip"
    [Item.init "C:\\r" (pathJoin "C:\\r\\o.zip" "b.zip")
        (zipSizeTok "b.zip" (pathJoin "C:\\r\\o.zip" "b.zip") 999)
        (TimeVal.tup t60)] (by rfl)
  exact h _ (by simp) (by decide)

/-- C5: symbolic links produce zero Entries and are never traversed:
the enumeration of a symlink node ignores its target subtree entirely,
and a whole scan is unchanged when every symlink (with everything below
it) is removed from the tree. -/
theorem claim_c5_symlinks_skipped :
    (∀ (parent name : String) (st : Nat) (mt : PyDT) (tgt rest : FSList),
        rglob parent (FSList.cons (FSTree.symlink name st mt tgt) rest) =
          { path := pathJoin parent name, is_symlink := true, is_dir := false,
            st_size := st, mtime := mt, asZip := none } :: rglob parent rest) ∧
    (∀ (root : String) (trees : FSList),
        analyze_folder root trees = analyze_folder root (pruneSymlinks trees)) := by
  constructor
  · intro parent name st mt tgt rest
    rfl
  · intro root trees
    unfold analyze_folder
    rw [rglob_pruneSymlinks, ← raw_filter_symlinks]

/-- C7: a destination whose lower-cased extension is not among
`.docx .xlsx .pdf .csv .json` makes the program report an error and
write nothing: no renderer runs for any format. -/
theorem claim_c7_unsupported_format :
    ∀ (pd pe : Bool) (rp : String),
      suffixLower rp ∉ supportedExts →
      (∀ f, main_model pd pe rp ≠ MainOutcome.wrote f) ∧
      (pd = true → pe = true →
        main_model pd pe rp = MainOutcome.errFormat (suffixLower rp)) := by
  intro pd pe rp h
  have h1 : ¬ suffixLower rp = ".docx" := fun hh => h (by simp [supportedExts, hh])
  have h2 : ¬ suffixLower rp = ".xlsx" := fun hh => h (by simp [supportedExts, hh])
  have h3 : ¬ suffixLower rp = ".pdf" := fun hh => h (by simp [supportedExts, hh])
  have h4 : ¬ suffixLower rp = ".csv" := fun hh => h (by simp [supportedExts, hh])
  have h5 : ¬ suffixLower rp = ".json" := fun hh => h (by simp [supportedExts, hh])
  constructor
  · intro f
    cases pd <;> cases pe <;> simp [main_model, h1, h2, h3, h4, h5]
  · intro hpd hpe
    subst hpd
    subst hpe
    simp [main_model, h1, h2, h3, h4, h5]

/-- Witness for C7 with a `.txt` destination. -/
theorem claim_c7_unsupported_format_witness :
    suffixLower "C:\\out\\report.txt" ∉ supportedExts ∧
    main_model true true "C:\\out\\report.txt" =
      MainOutcome.errFormat (suffixLower "C:\\out\\report.txt") :=
  ⟨by decide,
   (claim_c7_unsupported_format true true "C:\\out\\report.txt" (by decide)).2 rfl rfl⟩

/-- C8: the JSON report is exactly
`{"folder": <root label>, "items": [{level, name, size, time, path}…]}`
with one object per Entry in sequence order, and `size` is serialized as
a string even for a numeric byte count. -/
theorem claim_c8_json_shape :
    ∀ (fp : String) (data : List Item) (d : Item) (root p : String)
      (n : Nat) (tv : TimeVal),
      write_json fp data =
        Json.obj [("folder", Json.str fp),
          ("items", Json.arr (data.map itemJson))] ∧
      itemJson d =
        Json.obj [("level", Json.num d.level), ("name", Json.str d.name),
          ("size", Json.str d.size), ("time", Json.str d.time),
          ("path", Json.str d.path)] ∧
      (Item.init root p (SizeVal.int n) tv).size = natRepr n :=
  fun _ _ _ _ _ _ _ => ⟨rfl, rfl, rfl⟩

/-- C9: the directory test and the `.zip` test are sequential, so ZIP
overrides FOLDER whenever both apply; directories never open as
archives, so a real directory named `*.zip` (or an in-archive folder
record with a `.zip` virtual path) makes the walker abort with an error
instead of reporting a folder. -/
theorem claim_c9_sequential_classification :
    (∀ (p : String) (st : Nat), suffixLower p = ".zip" →
        fsSizeTok true p st = SizeVal.str "ZIP") ∧
    (∀ (fn p : String) (fs : Nat), suffixLower p = ".zip" →
        zipSizeTok fn p fs = SizeVal.str "ZIP") ∧
    (∀ (ts : FSList) (parent : String), ∀ n ∈ rglob parent ts,
        n.is_dir = true → n.asZip = none) ∧
    (∀ (root : String) (nodes : List FSNode), ∀ n ∈ nodes,
        n.is_symlink = false → suffixLower n.path = ".zip" → n.asZip = none →
        ∃ err, analyze_folder_raw root nodes = Except.error err) ∧
    (∀ (root : String) (zs : ZList) (zr : String), ∀ e ∈ zs.toList,
        e.asZip = none → suffixLower (pathJoin zr e.filename) = ".zip" →
        ∃ err, analyze_zip root zs zr = Except.error err) := by
  refine ⟨?_, ?_, rglob_dir_asZip_none, raw_bad_zip_error, analyze_zip_bad_member⟩
  · intro p st hs
    unfold fsSizeTok
    rw [if_pos hs]
  · intro fn p fs hs
    unfold zipSizeTok
    rw [if_pos hs]

/-- Witness for C9: a real directory named `d.zip` gets token ZIP and
aborts the scan. -/
theorem claim_c9_sequential_classification_witness :
    fsSizeTok true "C:\\r9\\d.zip" 0 = SizeVal.str "ZIP" ∧
    (∃ err, analyze_folder_raw "C:\\r9" [c9node] = Except.error err) :=
  ⟨claim_c9_sequential_classification.1 "C:\\r9\\d.zip" 0 (by decide),
   claim_c9_sequential_classification.2.2.2.1 "C:\\r9" [c9node] c9node
     (by simp) rfl (by decide) rfl⟩

/-- C10: Entries originating from the filesystem carry an ISO-8601
string — the folder loop emits, for every filesystem object, an `Item`
whose time is `isoformat` of its stat timestamp — while Entries
originating inside an archive carry the string of the `date_time`
6-tuple; every produced Entry has one of the two formats, and the two
formats can never coincide. -/
theorem claim_c10_time_formats :
    (∀ (root : String) (zs : ZList) (zr : String) (items : List Item),
        analyze_zip root zs zr = Except.ok items →
        ∀ it ∈ items, ∃ t6, it.time = tupleRepr t6) ∧
    (∀ (root : String) (nodes : List FSNode) (items : List Item),
        analyze_folder_raw root nodes = Except.ok items →
        ∀ n ∈ nodes, n.is_symlink = false →
        ∃ pre post, items = pre ++
          Item.init root n.path (fsSizeTok n.is_dir n.path n.st_size)
            (TimeVal.str (isoformat n.mtime)) :: post) ∧
    (∀ (root : String) (nodes : List FSNode) (items : List Item),
        analyze_folder_raw root nodes = Except.ok items →
        ∀ it ∈ items,
          (∃ t, it.time = isoformat t) ∨ (∃ t6, it.time = tupleRepr t6)) ∧
    (∀ (t : PyDT) (t6 : DT6), isoformat t ≠ tupleRepr t6) := by
  refine ⟨?_, raw_fs_entry, ?_, isoformat_ne_tupleRepr⟩
  · intro root zs zr items h it hit
    rcases analyze_zip_items_shape root zs zr items h it hit with ⟨fn, fs, dt, p, rfl⟩
    exact ⟨dt, rfl⟩
  · intro root nodes items h it hit
    rcases raw_items_shape root nodes items h it hit with
      ⟨p, sv, t, rfl⟩ | ⟨p, sv, t6, rfl⟩
    · exact Or.inl ⟨t, rfl⟩
    · exact Or.inr ⟨t6, rfl⟩

/-- Witness for C10: a concrete archive item carries a tuple-format
time, and the scan of a concrete plain file emits that file's `Item`
with the ISO rendering of its filesystem timestamp. -/
theorem claim_c10_time_formats_witness :
    (∃ t6, (Item.init "C:\\ra" (pathJoin "C:\\ra\\o.zip" "y.txt")
      (zipSizeTok "y.txt" (pathJoin "C:\\ra\\o.zip" "y.txt") 1)
      (TimeVal.tup t60)).time = tupleRepr t6) ∧
    (∃ pre post,
      [Item.init "C:\\ra" "C:\\ra\\g.txt" (fsSizeTok false "C:\\ra\\g.txt" 2)
        (TimeVal.str (isoformat dt0))] =
      pre ++ Item.init "C:\\ra" "C:\\ra\\g.txt" (fsSizeTok false "C:\\ra\\g.txt" 2)
        (TimeVal.str (isoformat dt0)) :: post) :=
  ⟨claim_c10_time_formats.1 "C:\\ra"
      (ZList.cons (ZEntry.mk "y.txt" 1 t60 none) ZList.nil) "C:\\ra\\o.zip"
      [Item.init "C:\\ra" (pathJoin "C:\\ra\\o.zip" "y.txt")
        (zipSizeTok "y.txt" (pathJoin "C:\\ra\\o.zip" "y.txt") 1)
        (TimeVal.tup t60)] (by rfl) _ (by simp),
   claim_c10_time_formats.2.1 "C:\\ra"
      [{ path := "C:\\ra\\g.txt", is_symlink := false, is_dir := false,
         st_size := 2, mtime := dt0, asZip := none }]
      [Item.init "C:\\ra" "C:\\ra\\g.txt" (fsSizeTok false "C:\\ra\\g.txt" 2)
        (TimeVal.str (isoformat dt0))] (by rfl)
      { path := "C:\\ra\\g.txt", is_symlink := false, is_dir := false,
        st_size := 2, mtime := dt0, asZip := none } (by simp) rfl⟩
